import Mathlib

/-!
# Verification of the Kokoros phonemizer (src/kokoros/src/tts/phonemizer.rs)

Shallow embedding of the phoneme post-processing pipeline.  Rust strings are
modelled as `List Char` (the sequence of Unicode scalar values produced by
`str::chars`), string-returning functions build a `String` from such a list at
the end.  The three `Regex` values of the source use lookaround constraints
(`fancy-regex` style); each is embedded as a structurally recursive scanner
with exactly the same match/replace semantics: matches are found left to
right, are non-overlapping, lookbehind and lookahead inspect the original
haystack and consume nothing.

External collaborators that are not part of this source file are passed as
explicit parameters, faithful to the interface the source consumes:
* the espeak backend (`EspeakBackend::phonemize` is an unimplemented stub in
  the source) appears as `backendFn : String → Option String`, one output per
  input of the single-element batch;
* the text normalizer (`normalize::normalize_text`) appears as
  `normalizeText : String → String`;
* the vocabulary table (`VOCAB`, only its `contains_key` membership test is
  used) appears as `vocab : Char → Bool`.
-/

set_option maxRecDepth 4000

/-- The error enum `BackendError` of the source (lines 14-19). -/
inductive BackendError where
  | UnsupportedLanguage : String → BackendError
  | NoEspeakForLanguage : String → BackendError
  | EspeakInitFailed : BackendError
deriving DecidableEq

/-- The struct `EspeakBackend` (lines 39-43): the backend configuration held
by a `Phonemizer`. -/
structure EspeakBackend where
  language : String
  preserve_punctuation : Bool
  with_stress : Bool
deriving DecidableEq

/-- `EspeakBackend::new` (lines 46-52). -/
def EspeakBackend.new (language : String) (preserve_punctuation : Bool)
    (with_stress : Bool) : EspeakBackend :=
  { language := language, preserve_punctuation := preserve_punctuation,
    with_stress := with_stress }

/-- The struct `Phonemizer` (lines 61-64). -/
structure Phonemizer where
  lang : String
  backend : EspeakBackend
deriving DecidableEq

/-- `Phonemizer::lang_code` (lines 82-93): the fixed language-tag to locale-id
table. -/
def Phonemizer.lang_code (lang : String) : Option String :=
  if lang = "a" then some "en-us"
  else if lang = "b" then some "en-gb"
  else if lang = "e" then some "es"
  else if lang = "f" then some "fr-fr"
  else if lang = "h" then some "hi"
  else if lang = "i" then some "it"
  else if lang = "p" then some "pt-br"
  else none

/-- `Phonemizer::build_backend` (lines 76-80). -/
def Phonemizer.build_backend (lang : String) : Except BackendError EspeakBackend :=
  match Phonemizer.lang_code lang with
  | some code => Except.ok (EspeakBackend.new code true true)
  | none => Except.error (BackendError.UnsupportedLanguage lang)

/-- `Phonemizer::new` (lines 67-74). -/
def Phonemizer.new (lang : String) : Except BackendError Phonemizer :=
  match Phonemizer.build_backend lang with
  | Except.ok backend => Except.ok { lang := lang, backend := backend }
  | Except.error e => Except.error e

/-- Fuel-indexed scanner implementing Rust `str::replace`: replace every
leftmost non-overlapping occurrence of `pat` by `rep`, scanning left to
right.  Each step consumes at least one character, so `fuel = s.length`
(see `listReplace`) is always enough; the fuel only makes the recursion
structural. -/
def replaceFuel (pat rep : List Char) : Nat → List Char → List Char
  | 0, s => s
  | _ + 1, [] => []
  | fuel + 1, c :: rest =>
    if pat ≠ [] ∧ List.isPrefixOf pat (c :: rest) then
      rep ++ replaceFuel pat rep fuel (List.drop pat.length (c :: rest))
    else
      c :: replaceFuel pat rep fuel rest

/-- Rust `str::replace s pat rep` for the non-empty patterns used by the
source. -/
def listReplace (s pat rep : List Char) : List Char :=
  replaceFuel pat rep s.length s

/-- The two kokoro-specific literal replacements (lines 109-111). -/
def kokoroFixups (s : List Char) : List Char :=
  listReplace (listReplace s "kəkˈoːɹoʊ".data "kˈoʊkəɹoʊ".data)
    "kəkˈɔːɹəʊ".data "kˈəʊkəɹəʊ".data

/-- The four character replacements (lines 114-118). -/
def charReplacements (s : List Char) : List Char :=
  listReplace (listReplace (listReplace (listReplace s
    ['ʲ'] ['j']) ['r'] ['ɹ']) ['x'] ['k']) ['ɬ'] ['l']

/-- The lookbehind class `[a-zɹː]` of `PHONEME_PATTERNS` (line 7). -/
def phClass (c : Char) : Bool :=
  decide (('a' ≤ c ∧ c ≤ 'z') ∨ c = 'ɹ' ∨ c = 'ː')

/-- The lookahead literal `hˈʌndɹɪd` of `PHONEME_PATTERNS` (line 7). -/
def hundredTarget : List Char := ['h', 'ˈ', 'ʌ', 'n', 'd', 'ɹ', 'ɪ', 'd']

/-- `PHONEME_PATTERNS.replace_all(ps, " ")` (lines 7 and 121): the pattern
`(?<=[a-zɹː])(?=hˈʌndɹɪd)` is zero-width, so replacing each match by a space
inserts a space at every position whose preceding character is in the class
and whose following text starts with `hˈʌndɹɪd`.  Two matches are never
adjacent (the character after a match position is `h`, the one after that is
`ˈ`), so the left-to-right scan visits each inter-character position once. -/
def phStage : List Char → List Char
  | [] => []
  | c :: rest =>
    if phClass c && List.isPrefixOf hundredTarget rest then
      c :: ' ' :: phStage rest
    else
      c :: phStage rest

/-- The lookahead class of `Z_PATTERN` (line 8), in source order; the source
class literally contains the double-quote character three times, and the
space character is its last member. -/
def zClassChars : List Char :=
  [';', ':', ',', '.', '!', '?', '¡', '¿', '—', '…', '"', '«', '»', '"', '"', ' ']

/-- The lookahead of `Z_PATTERN`: end of string, or a character of the
class. -/
def zEnd : List Char → Bool
  | [] => true
  | c :: _ => decide (c ∈ zClassChars)

/-- `Z_PATTERN.replace_all(ps, "z")` (lines 8 and 122): replace every
leftmost non-overlapping occurrence of a space followed by `z` whose
lookahead (`zEnd`) holds by the single character `z`.  After a failed match
at a space the scan advances one character; a match can only start at a
space, so advancing over the consumed `z` as well is sound. -/
def zRule : List Char → List Char
  | [] => []
  | [c] => [c]
  | c1 :: c2 :: rest =>
    if c1 = ' ' ∧ c2 = 'z' ∧ zEnd rest then
      'z' :: zRule rest
    else
      c1 :: zRule (c2 :: rest)

/-- The lookbehind literal `nˈaɪn` of `NINETY_PATTERN` (line 9), reversed,
to be compared with the reversed already-scanned prefix of the haystack. -/
def ninetyLookbehind : List Char := ['n', 'ɪ', 'a', 'ˈ', 'n']

/-- Scanner for `NINETY_PATTERN.replace_all(ps, "di")` (lines 9 and 125):
`prev` is the reversed prefix of the original haystack already scanned, so
the lookbehind `(?<=nˈaɪn)` and the negative lookahead `(?!ː)` inspect the
original text, as the regex engine does. -/
def ninetyAux (prev : List Char) : List Char → List Char
  | [] => []
  | [c] => [c]
  | c1 :: c2 :: rest =>
    if c1 = 't' ∧ c2 = 'i' ∧ List.isPrefixOf ninetyLookbehind prev ∧ rest.head? ≠ some 'ː' then
      'd' :: 'i' :: ninetyAux ('i' :: 't' :: prev) rest
    else
      c1 :: ninetyAux (c1 :: prev) (c2 :: rest)

/-- `NINETY_PATTERN.replace_all(ps, "di")` on a whole string. -/
def ninetyRule (s : List Char) : List Char := ninetyAux [] s

/-- The language-conditional application of `NINETY_PATTERN` (lines
124-126). -/
def applyNinety (lang : String) (s : List Char) : List Char :=
  if lang = "a" then ninetyRule s else s

/-- Occurrence test: does `pat` occur as a contiguous subsequence of the
second list?  Used to state that the literal replacements leave
non-matching strings unchanged. -/
def containsSeq (pat : List Char) : List Char → Bool
  | [] => pat.isEmpty
  | c :: rest => List.isPrefixOf pat (c :: rest) || containsSeq pat rest

/-- The Unicode white-space characters trimmed by Rust `str::trim`. -/
def rustWhitespace : List Char :=
  ['\u0009', '\u000a', '\u000b', '\u000c', '\u000d', '\u0020', '\u0085',
   '\u00a0', '\u1680', '\u2000', '\u2001', '\u2002', '\u2003', '\u2004',
   '\u2005', '\u2006', '\u2007', '\u2008', '\u2009', '\u200a', '\u2028',
   '\u2029', '\u202f', '\u205f', '\u3000']

/-- Rust `char::is_whitespace`. -/
def isRustWhitespace (c : Char) : Bool := decide (c ∈ rustWhitespace)

/-- Rust `str::trim` (line 131). -/
def trimChars (s : List Char) : List Char :=
  ((s.dropWhile isRustWhitespace).reverse.dropWhile isRustWhitespace).reverse

/-- The vocabulary filtering step (line 129):
`ps.chars().filter(|&c| VOCAB.contains_key(&c)).collect()`.  The `VOCAB`
table lives outside this source file; its membership test is the parameter
`vocab`. -/
def vocabFilter (vocab : Char → Bool) (ps : List Char) : List Char :=
  List.filter vocab ps

/-- Extraction of the raw phoneme string (lines 103-106): take the single
output of the backend for the single-element batch, or the empty string when
the backend returns no result.  Modelled from the spec: the backend adapter
(`EspeakBackend::phonemize`, an unimplemented stub in the source) returns
one output per input, so its answer for a one-element batch is
`Option String`. -/
def rawPhonemes (backendFn : String → Option String) (text : String) : String :=
  match backendFn text with
  | some phonemes => phonemes
  | none => ""

/-- `Phonemizer::phonemize` (lines 95-132).  The stages appear innermost
first, in the source order: optional normalization, backend call, kokoro
literal fix-ups, character replacements, `PHONEME_PATTERNS`, `Z_PATTERN`,
the language-gated `NINETY_PATTERN`, vocabulary filtering, trim. -/
def Phonemizer.phonemize (self : Phonemizer) (vocab : Char → Bool)
    (normalizeText : String → String) (backendFn : String → Option String)
    (text : String) (normalize : Bool) : String :=
  String.mk (trimChars (vocabFilter vocab
    (applyNinety self.lang
      (zRule (phStage (charReplacements (kokoroFixups
        (rawPhonemes backendFn
          (if normalize then normalizeText text else text)).data)))))))

/-- The arguments of one `phonemize` call, for stating frame properties over
call sequences. -/
structure CallArgs where
  vocab : Char → Bool
  normalizeText : String → String
  backendFn : String → Option String
  text : String
  normalize : Bool

/-- One `phonemize` call together with the post-state of the receiver: the
Rust method takes `&self` (an immutable borrow), reads `self.lang` and
`self.backend` and assigns neither, so the post-state is the receiver
itself. -/
def Phonemizer.phonemizeCall (self : Phonemizer) (args : CallArgs) :
    String × Phonemizer :=
  (self.phonemize args.vocab args.normalizeText args.backendFn args.text
    args.normalize, self)

/-!
## Helper lemmas
-/

theorem replaceFuel_not_contains (pat rep : List Char) :
    ∀ (fuel : Nat) (s : List Char), containsSeq pat s = false →
      replaceFuel pat rep fuel s = s := by
  intro fuel
  induction fuel with
  | zero => intro s _; rfl
  | succ n ih =>
    intro s h
    cases s with
    | nil => rfl
    | cons c rest =>
      have h2 : List.isPrefixOf pat (c :: rest) = false ∧ containsSeq pat rest = false := by
        simpa [containsSeq] using h
      simp [replaceFuel, h2.1, ih rest h2.2]

theorem listReplace_not_contains (s pat rep : List Char)
    (h : containsSeq pat s = false) : listReplace s pat rep = s :=
  replaceFuel_not_contains pat rep s.length s h

theorem isPrefixOf_append_self (p t : List Char) :
    List.isPrefixOf p (p ++ t) = true := by
  induction p with
  | nil => simp [List.isPrefixOf]
  | cons a as ih => simp [List.isPrefixOf, ih]

theorem mem_of_mem_trimChars {c : Char} {l : List Char}
    (h : c ∈ trimChars l) : c ∈ l := by
  unfold trimChars at h
  rw [List.mem_reverse] at h
  have h1 := (List.dropWhile_sublist isRustWhitespace).mem h
  rw [List.mem_reverse] at h1
  exact (List.dropWhile_sublist isRustWhitespace).mem h1

theorem applyNinety_nil (lang : String) : applyNinety lang [] = [] := by
  unfold applyNinety
  split <;> rfl

theorem zRule_append (x : List Char) : ∀ (a : List Char), ' ' ∉ a →
    zRule (a ++ x) = a ++ zRule x := by
  intro a
  induction a with
  | nil => intro _; rfl
  | cons c a2 ih =>
    intro ha
    simp only [List.mem_cons, not_or] at ha
    obtain ⟨hc, ha2⟩ := ha
    cases hax : a2 ++ x with
    | nil =>
      obtain ⟨h1, h2⟩ := List.append_eq_nil.mp hax
      subst h1; subst h2
      simp [zRule]
    | cons d l =>
      rw [List.cons_append, hax]
      simp only [zRule]
      rw [if_neg (by intro hcontra; exact hc hcontra.1.symm)]
      rw [← hax, ih ha2, List.cons_append]

theorem zRule_space_z (b : List Char) :
    zRule (' ' :: 'z' :: b) =
      if zEnd b then 'z' :: zRule b else ' ' :: 'z' :: zRule b := by
  by_cases h : zEnd b = true
  · simp [zRule, h]
  · have h2 : zEnd b = false := by simpa using h
    cases b with
    | nil => simp [zEnd] at h2
    | cons c bs => simp [zRule, h2]

theorem zEnd_lower_false {c : Char} (h1 : 'a' ≤ c) (h2 : c ≤ 'z')
    (bs : List Char) : zEnd (c :: bs) = false := by
  simp only [zEnd, decide_eq_false_iff_not]
  intro hmem
  simp only [zClassChars, List.mem_cons, List.not_mem_nil, or_false] at hmem
  rcases hmem with rfl|rfl|rfl|rfl|rfl|rfl|rfl|rfl|rfl|rfl|rfl|rfl|rfl|rfl|rfl|rfl
  all_goals first
    | exact absurd h1 (by decide)
    | exact absurd h2 (by decide)

theorem phStage_append (x : List Char)
    (hx : List.isPrefixOf hundredTarget x = false) :
    ∀ (a : List Char), 'h' ∉ a → phStage (a ++ x) = a ++ phStage x := by
  intro a
  induction a with
  | nil => intro _; rfl
  | cons c a2 ih =>
    intro ha
    simp only [List.mem_cons, not_or] at ha
    obtain ⟨hc, ha2⟩ := ha
    have hpre : List.isPrefixOf hundredTarget (a2 ++ x) = false := by
      cases a2 with
      | nil => simpa using hx
      | cons d l =>
        have hd : ('h' == d) = false := by
          have : 'h' ≠ d := fun hh => ha2 (by rw [hh]; exact List.mem_cons_self d l)
          simpa using this
        simp [hundredTarget, List.isPrefixOf, hd]
    rw [List.cons_append]
    simp only [phStage, hpre, Bool.and_false, Bool.false_eq_true, if_false]
    rw [ih ha2, List.cons_append]

/-!
## Claim theorems
-/

/-- C1: every character of the string returned by `Phonemizer::phonemize` is
a symbol accepted by the vocabulary membership test, for every input text,
every value of the normalize flag, every backend and normalizer behaviour
and every vocabulary; no character outside the vocabulary ever appears in
the output. -/
theorem phonemize_chars_in_vocab (p : Phonemizer) (vocab : Char → Bool)
    (normalizeText : String → String) (backendFn : String → Option String)
    (text : String) (norm : Bool) (c : Char)
    (hc : c ∈ (p.phonemize vocab normalizeText backendFn text norm).data) :
    vocab c = true := by
  unfold Phonemizer.phonemize at hc
  have h1 : c ∈ vocabFilter vocab (applyNinety p.lang (zRule (phStage
      (charReplacements (kokoroFixups (rawPhonemes backendFn
        (if norm then normalizeText text else text)).data))))) :=
    mem_of_mem_trimChars hc
  unfold vocabFilter at h1
  exact (List.mem_filter.mp h1).2

/-- Witness for C1 at a concrete pipeline whose vocabulary accepts only
`z`. -/
theorem phonemize_chars_in_vocab_witness :
    (fun c => c == 'z') 'z' = true :=
  phonemize_chars_in_vocab
    { lang := "a",
      backend := { language := "en-us", preserve_punctuation := true, with_stress := true } }
    (fun c => c == 'z') id (fun _ => some " z") "x" false 'z' (by decide)

/-- C2: resolution returns the canonical locale id for each of the seven
supported tags, and for every string outside this fixed set construction
fails with `UnsupportedLanguage` carrying that tag. -/
theorem lang_resolution_correct :
    (Phonemizer.lang_code "a" = some "en-us" ∧
     Phonemizer.lang_code "b" = some "en-gb" ∧
     Phonemizer.lang_code "e" = some "es" ∧
     Phonemizer.lang_code "f" = some "fr-fr" ∧
     Phonemizer.lang_code "h" = some "hi" ∧
     Phonemizer.lang_code "i" = some "it" ∧
     Phonemizer.lang_code "p" = some "pt-br") ∧
    (∀ lang : String, lang ≠ "a" → lang ≠ "b" → lang ≠ "e" → lang ≠ "f" →
      lang ≠ "h" → lang ≠ "i" → lang ≠ "p" →
      Phonemizer.new lang = Except.error (BackendError.UnsupportedLanguage lang)) := by
  constructor
  · exact ⟨rfl, rfl, rfl, rfl, rfl, rfl, rfl⟩
  · intro lang h1 h2 h3 h4 h5 h6 h7
    simp [Phonemizer.new, Phonemizer.build_backend, Phonemizer.lang_code,
      h1, h2, h3, h4, h5, h6, h7]

/-- Witness for C2 at a tag outside the supported set. -/
theorem lang_resolution_correct_witness :
    Phonemizer.new "zz" = Except.error (BackendError.UnsupportedLanguage "zz") :=
  lang_resolution_correct.2 "zz" (by decide) (by decide) (by decide) (by decide)
    (by decide) (by decide) (by decide)

/-- C3: phonemize is total: a backend returning no result, or returning an
empty raw phoneme string, yields the empty output string. -/
theorem phonemize_total_on_backend_absence (p : Phonemizer) (vocab : Char → Bool)
    (normalizeText : String → String) (backendFn : String → Option String)
    (text : String) (norm : Bool) :
    (backendFn (if norm then normalizeText text else text) = none →
      p.phonemize vocab normalizeText backendFn text norm = "") ∧
    (backendFn (if norm then normalizeText text else text) = some "" →
      p.phonemize vocab normalizeText backendFn text norm = "") := by
  have hk : zRule (phStage (charReplacements (kokoroFixups "".data))) = [] := by decide
  constructor <;> intro h <;>
    (simp only [Phonemizer.phonemize, rawPhonemes, h]
     rw [hk, applyNinety_nil]
     simp [vocabFilter, trimChars])

/-- Witness for C3 at a backend that returns no result. -/
theorem phonemize_total_on_backend_absence_witness :
    Phonemizer.phonemize
      { lang := "b",
        backend := { language := "en-gb", preserve_punctuation := true, with_stress := true } }
      (fun _ => true) id (fun _ => none) "hello" false = "" :=
  (phonemize_total_on_backend_absence _ _ _ _ _ _).1 rfl

/-- C4: vocabulary filtering is idempotent: filtering an already filtered
string returns it unchanged, for every vocabulary and every string. -/
theorem vocabFilter_idempotent (vocab : Char → Bool) (s : List Char) :
    vocabFilter vocab (vocabFilter vocab s) = vocabFilter vocab s := by
  unfold vocabFilter
  rw [List.filter_filter]
  simp [Bool.and_self]

/-- C5: the lexical fix-up step rewrites each of the two known
mis-renderings to its canonical form, replaces every occurrence (shown on a
string holding two occurrences), leaves every string with no occurrence of
either mis-rendering unchanged, and the end-to-end scenario for language
`a` with raw backend output `kəkˈoːɹoʊ` passing unchanged through the
backend and vocabulary produces `kˈoʊkəɹoʊ`. -/
theorem kokoro_fixups_correct :
    (kokoroFixups "kəkˈoːɹoʊ".data = "kˈoʊkəɹoʊ".data ∧
     kokoroFixups "kəkˈɔːɹəʊ".data = "kˈəʊkəɹəʊ".data) ∧
    (kokoroFixups ("kəkˈoːɹoʊ".data ++ ' ' :: "kəkˈoːɹoʊ".data) =
      "kˈoʊkəɹoʊ".data ++ ' ' :: "kˈoʊkəɹoʊ".data) ∧
    (∀ s : List Char, containsSeq "kəkˈoːɹoʊ".data s = false →
      containsSeq "kəkˈɔːɹəʊ".data s = false → kokoroFixups s = s) ∧
    (∀ (pz : Phonemizer) (vocab : Char → Bool) (nf : String → String)
       (bf : String → Option String) (text : String) (norm : Bool),
      Phonemizer.new "a" = Except.ok pz →
      bf (if norm then nf text else text) = some "kəkˈoːɹoʊ" →
      (∀ c ∈ "kˈoʊkəɹoʊ".data, vocab c = true) →
      pz.phonemize vocab nf bf text norm = "kˈoʊkəɹoʊ") := by
  refine ⟨⟨by decide, by decide⟩, by decide, ?_, ?_⟩
  · intro s h1 h2
    unfold kokoroFixups
    rw [listReplace_not_contains s _ _ h1, listReplace_not_contains s _ _ h2]
  · intro pz vocab nf bf text norm hnew hbf hvocab
    have hok : Phonemizer.new "a" = Except.ok
        { lang := "a",
          backend := { language := "en-us", preserve_punctuation := true, with_stress := true } } := rfl
    rw [hok] at hnew
    obtain rfl := (Except.ok.inj hnew).symm
    simp only [Phonemizer.phonemize, rawPhonemes, hbf]
    have hmid : applyNinety "a" (zRule (phStage (charReplacements
        (kokoroFixups "kəkˈoːɹoʊ".data)))) = "kˈoʊkəɹoʊ".data := by decide
    rw [hmid]
    unfold vocabFilter
    rw [List.filter_eq_self.mpr hvocab]
    decide

/-- Witness for C5: an unrelated phoneme string is left unchanged, and the
end-to-end scenario at concrete arguments. -/
theorem kokoro_fixups_correct_witness :
    kokoroFixups "həlˈoʊ".data = "həlˈoʊ".data ∧
    Phonemizer.phonemize
      { lang := "a",
        backend := { language := "en-us", preserve_punctuation := true, with_stress := true } }
      (fun _ => true) id (fun _ => some "kəkˈoːɹoʊ") "x" false = "kˈoʊkəɹoʊ" := by
  constructor
  · exact kokoro_fixups_correct.2.2.1 _ (by decide) (by decide)
  · exact kokoro_fixups_correct.2.2.2 _ _ _ _ _ _ rfl rfl (fun _ _ => rfl)

/-- C6: the trailing-fricative rule rewrites a space followed by `z` into
`z` exactly when the `z` is immediately followed by end-of-string or by one
of the characters the pattern class recognizes, and leaves a `z` followed
by an ASCII letter untouched. -/
theorem z_rule_correct (a b : List Char) (ha : ' ' ∉ a) :
    ((zRule (a ++ ' ' :: 'z' :: b) = a ++ 'z' :: zRule b) ↔
      (b = [] ∨ ∃ c bs, b = c :: bs ∧ c ∈ zClassChars)) ∧
    (∀ (c : Char) (bs : List Char), b = c :: bs → 'a' ≤ c → c ≤ 'z' →
      zRule (a ++ ' ' :: 'z' :: b) = a ++ ' ' :: 'z' :: zRule b) := by
  have key := zRule_append (' ' :: 'z' :: b) a ha
  constructor
  · rw [key, zRule_space_z]
    by_cases h : zEnd b = true
    · rw [if_pos h]
      constructor
      · intro _
        cases b with
        | nil => exact Or.inl rfl
        | cons c bs =>
          refine Or.inr ⟨c, bs, rfl, ?_⟩
          simpa [zEnd] using h
      · intro _; rfl
    · have h2 : zEnd b = false := by simpa using h
      rw [if_neg (by simp [h2])]
      constructor
      · intro heq
        exfalso
        have hcc := List.append_cancel_left heq
        simp at hcc
      · intro hdisj
        exfalso
        rcases hdisj with rfl | ⟨c, bs, rfl, hmem⟩
        · simp [zEnd] at h2
        · simp [zEnd, hmem] at h2
  · intro c bs hb h1 h2
    subst hb
    rw [key, zRule_space_z, if_neg (by simp [zEnd_lower_false h1 h2])]

/-- Witness for C6: the rewrite fires at end-of-string and does not fire
before a letter. -/
theorem z_rule_correct_witness :
    zRule (['k'] ++ ' ' :: 'z' :: []) = ['k'] ++ 'z' :: zRule [] ∧
    zRule (['k'] ++ ' ' :: 'z' :: ['d']) = ['k'] ++ ' ' :: 'z' :: zRule ['d'] := by
  constructor
  · exact (z_rule_correct ['k'] [] (by decide)).1.mpr (Or.inl rfl)
  · exact (z_rule_correct ['k'] ['d'] (by decide)).2 'd' [] rfl (by decide) (by decide)

/-- C7: the numeral-suffix rewrite participates in the pipeline exactly when
the phonemizer's language equals `a`; on the identical raw input `nˈaɪnti`
the language-`a` pipeline rewrites the ending to give `nˈaɪndi` while the
language-`b` pipeline leaves the suffix unmodified. -/
theorem ninety_rule_language_gated :
    (∀ (p : Phonemizer) (vocab : Char → Bool) (nf : String → String)
       (bf : String → Option String) (text : String) (norm : Bool),
      p.lang ≠ "a" →
      p.phonemize vocab nf bf text norm =
        String.mk (trimChars (vocabFilter vocab (zRule (phStage (charReplacements
          (kokoroFixups (rawPhonemes bf (if norm then nf text else text)).data))))))) ∧
    (∀ (p : Phonemizer) (vocab : Char → Bool) (nf : String → String)
       (bf : String → Option String) (text : String) (norm : Bool),
      p.lang = "a" →
      p.phonemize vocab nf bf text norm =
        String.mk (trimChars (vocabFilter vocab (ninetyRule (zRule (phStage (charReplacements
          (kokoroFixups (rawPhonemes bf (if norm then nf text else text)).data)))))))) ∧
    (∀ (pa pb : Phonemizer) (vocab : Char → Bool) (nf : String → String)
       (bf : String → Option String) (text : String) (norm : Bool),
      Phonemizer.new "a" = Except.ok pa →
      Phonemizer.new "b" = Except.ok pb →
      bf (if norm then nf text else text) = some "nˈaɪnti" →
      (∀ c ∈ "nˈaɪnti".data, vocab c = true) → vocab 'd' = true →
      pa.phonemize vocab nf bf text norm = "nˈaɪndi" ∧
      pb.phonemize vocab nf bf text norm = "nˈaɪnti") := by
  refine ⟨?_, ?_, ?_⟩
  · intro p vocab nf bf text norm h
    simp [Phonemizer.phonemize, applyNinety, h]
  · intro p vocab nf bf text norm h
    simp [Phonemizer.phonemize, applyNinety, h]
  · intro pa pb vocab nf bf text norm hna hnb hbf hv hd
    have hoa : Phonemizer.new "a" = Except.ok
        { lang := "a",
          backend := { language := "en-us", preserve_punctuation := true, with_stress := true } } := rfl
    have hob : Phonemizer.new "b" = Except.ok
        { lang := "b",
          backend := { language := "en-gb", preserve_punctuation := true, with_stress := true } } := rfl
    rw [hoa] at hna
    rw [hob] at hnb
    obtain rfl := (Except.ok.inj hna).symm
    obtain rfl := (Except.ok.inj hnb).symm
    constructor
    · simp only [Phonemizer.phonemize, rawPhonemes, hbf]
      have hmid : applyNinety "a" (zRule (phStage (charReplacements
          (kokoroFixups "nˈaɪnti".data)))) = "nˈaɪndi".data := by decide
      rw [hmid]
      have hv2 : ∀ c ∈ "nˈaɪndi".data, vocab c = true := by
        have hdata : "nˈaɪndi".data = ['n', 'ˈ', 'a', 'ɪ', 'n', 'd', 'i'] := by decide
        rw [hdata]
        intro c hcmem
        simp only [List.mem_cons, List.not_mem_nil, or_false] at hcmem
        rcases hcmem with rfl|rfl|rfl|rfl|rfl|rfl|rfl <;>
          first
            | exact hd
            | exact hv _ (by decide)
      unfold vocabFilter
      rw [List.filter_eq_self.mpr hv2]
      decide
    · simp only [Phonemizer.phonemize, rawPhonemes, hbf]
      have hmid : applyNinety "b" (zRule (phStage (charReplacements
          (kokoroFixups "nˈaɪnti".data)))) = "nˈaɪnti".data := by decide
      rw [hmid]
      unfold vocabFilter
      rw [List.filter_eq_self.mpr hv]
      decide

/-- Witness for C7: the two concrete pipelines at language `a` and `b` on
the identical raw input. -/
theorem ninety_rule_language_gated_witness :
    Phonemizer.phonemize
      { lang := "a",
        backend := { language := "en-us", preserve_punctuation := true, with_stress := true } }
      (fun _ => true) id (fun _ => some "nˈaɪnti") "ninety" false = "nˈaɪndi" ∧
    Phonemizer.phonemize
      { lang := "b",
        backend := { language := "en-gb", preserve_punctuation := true, with_stress := true } }
      (fun _ => true) id (fun _ => some "nˈaɪnti") "ninety" false = "nˈaɪnti" :=
  ninety_rule_language_gated.2.2 _ _ _ _ _ _ _ rfl rfl rfl (fun _ _ => rfl) rfl

/-- C8: the word-fusion rule inserts a separating space immediately before
`hˈʌndɹɪd` exactly when the preceding character is in the class `[a-zɹː]`,
leaving the surrounding context intact, and makes no change at that
position otherwise. -/
theorem hundred_rule_correct (a : List Char) (c : Char) (b : List Char)
    (ha : 'h' ∉ a) :
    phStage (a ++ c :: (hundredTarget ++ b)) =
      if phClass c then a ++ c :: ' ' :: phStage (hundredTarget ++ b)
      else a ++ c :: phStage (hundredTarget ++ b) := by
  have hnp : List.isPrefixOf hundredTarget (c :: (hundredTarget ++ b)) = false := by
    simp [hundredTarget, List.isPrefixOf]
  have happ := phStage_append (c :: (hundredTarget ++ b)) hnp a ha
  rw [happ]
  have hself : List.isPrefixOf hundredTarget (hundredTarget ++ b) = true :=
    isPrefixOf_append_self hundredTarget b
  by_cases hc : phClass c = true
  · rw [if_pos hc]
    simp [phStage, hc, hself]
  · have hcf : phClass c = false := by simpa using hc
    rw [if_neg (by simp [hcf])]
    simp [phStage, hcf]

/-- Witness for C8 at the motivating fused rendering of "one hundred". -/
theorem hundred_rule_correct_witness :
    phStage (['w', 'ˈ', 'ʌ'] ++ 'n' :: (hundredTarget ++ [])) =
      if phClass 'n' then ['w', 'ˈ', 'ʌ'] ++ 'n' :: ' ' :: phStage (hundredTarget ++ [])
      else ['w', 'ˈ', 'ʌ'] ++ 'n' :: phStage (hundredTarget ++ []) :=
  hundred_rule_correct ['w', 'ˈ', 'ʌ'] 'n' [] (by decide)

/-- C9: a successfully constructed phonemizer is immutable for its
lifetime: the `phonemize` method borrows the receiver immutably, so the
post-state of every call in any sequence of calls is the receiver itself,
and `lang` and `backend` are unchanged by each call. -/
theorem phonemizer_immutable (p : Phonemizer) (calls : List CallArgs) :
    (calls.foldl (fun st args => (st.phonemizeCall args).2) p = p) ∧
    (∀ args : CallArgs,
      ((p.phonemizeCall args).2.lang = p.lang ∧
       (p.phonemizeCall args).2.backend = p.backend)) := by
  constructor
  · induction calls with
    | nil => rfl
    | cons a l ih => exact ih
  · intro args
    exact ⟨rfl, rfl⟩

/-- C10: the lookahead class of `Z_PATTERN` includes the space character, so
the trailing-fricative collapse also fires mid-string before a plain space:
every occurrence of space-z-space is rewritten with the leading space
dropped. -/
theorem z_rule_space_lookahead :
    (' ' ∈ zClassChars) ∧
    (∀ a b : List Char, ' ' ∉ a →
      zRule (a ++ ' ' :: 'z' :: ' ' :: b) = a ++ 'z' :: zRule (' ' :: b)) := by
  constructor
  · decide
  · intro a b ha
    rw [zRule_append (' ' :: 'z' :: ' ' :: b) a ha, zRule_space_z, if_pos (by rfl)]

/-- Witness for C10 at a concrete mid-string occurrence. -/
theorem z_rule_space_lookahead_witness :
    zRule (['ə'] ++ ' ' :: 'z' :: ' ' :: []) = ['ə'] ++ 'z' :: zRule (' ' :: []) :=
  z_rule_space_lookahead.2 ['ə'] [] (by decide)
